import Mathlib

/-!
Verification of the retrieval core of the rag-ai-assistant repository
(`backend/ingest.py` and `backend/rag.py`), shallowly embedded in Lean.

Text is modelled as `List Char`, embedding vectors as `List Int` (exact
arithmetic standing in for the float vectors), and the on-disk index
directory as a record of three optional artifacts.  External effectful
capabilities (the sentence-transformer model, the OpenAI client, file
parsing) are passed in as function parameters, mirroring the way the
source treats them as black boxes.
-/

namespace Rag

/-- Whitespace characters: the ASCII characters matched by the regex
class `\s` used in `clean_text` (ingest.py line 93) and stripped by
`str.strip`. -/
def isSpaceChar (c : Char) : Bool :=
  c = ' ' || c = '\t' || c = '\n' || c = '\r' || c = Char.ofNat 11 || c = Char.ofNat 12

/-- Word characters, the regex class `\w` (ASCII): letters, digits and
the underscore. -/
def isWordChar (c : Char) : Bool :=
  c.isAlphanum || c = '_'

/-- Characters kept by the second substitution of `clean_text`
(ingest.py line 95): the complement of `[^\w\s\.\,\!\?\;\:\-\(\)]`. -/
def allowedChar (c : Char) : Bool :=
  isWordChar c || isSpaceChar c ||
    c = '.' || c = ',' || c = '!' || c = '?' ||
    c = ';' || c = ':' || c = '-' || c = '(' || c = ')'

/-- Model of `re.sub(r"\s+", " ", text)` (ingest.py line 93): every
maximal run of whitespace characters becomes a single space.  The flag
records whether the previous character belonged to a whitespace run. -/
def collapseWsAux : Bool → List Char → List Char
  | _, [] => []
  | inRun, c :: cs =>
    if isSpaceChar c then
      (if inRun then [] else [' ']) ++ collapseWsAux true cs
    else c :: collapseWsAux false cs

/-- Whitespace-run collapsing, starting outside a run. -/
def collapseWs (l : List Char) : List Char := collapseWsAux false l

/-- Model of Python `str.strip()`: drop whitespace from both ends. -/
def pyStrip (l : List Char) : List Char :=
  ((l.dropWhile isSpaceChar).reverse.dropWhile isSpaceChar).reverse

/-- `DocumentIngester.clean_text` (ingest.py lines 90-96): collapse
whitespace runs, drop characters outside the allow-list, strip. -/
def clean_text (text : List Char) : List Char :=
  pyStrip ((collapseWs text).filter allowedChar)

/-- Spec-side observer: does the text contain two consecutive
whitespace characters anywhere? -/
def hasDoubleSpace : List Char → Bool
  | a :: b :: rest => (isSpaceChar a && isSpaceChar b) || hasDoubleSpace (b :: rest)
  | _ => false

/-- The configured chunk size, `self.chunk_size` (ingest.py line 30). -/
def chunk_size : Nat := 1000

/-- The configured chunk overlap, `self.chunk_overlap` (ingest.py line 31). -/
def chunk_overlap : Nat := 200

/-- Positions of the character `.` in `text` inside the window
`[s, e)`, in increasing order. -/
def dotPositions (text : List Char) (s e : Nat) : List Nat :=
  (List.range text.length).filter fun i =>
    decide (s ≤ i) && decide (i < e) && (text.getD i ' ' == '.')

/-- Model of `text.rfind('.', s, e)` (ingest.py line 112): the largest
position of `.` in the window, `none` when there is none (Python
returns `-1`, which then fails the snap comparison). -/
def rfindDot (text : List Char) (s e : Nat) : Option Nat :=
  (dotPositions text s e).getLast?

/-- End position of the window starting at `start` in `chunk_text`
(ingest.py lines 107-114): `start + chunk_size`, snapped back to just
after the last sentence terminator when one occurs within the final
100 characters of the window and the window does not already reach the
end of the text. -/
def chunkEnd (text : List Char) (start : Nat) : Nat :=
  if start + chunk_size < text.length then
    match rfindDot text start (start + chunk_size) with
    | some se => if start + chunk_size - 100 < se then se + 1 else start + chunk_size
    | none => start + chunk_size
  else start + chunk_size

/-- Lower bound on the window end: even when snapped to a sentence
boundary the end stays at least `start + 902`. -/
theorem chunkEnd_ge (text : List Char) (start : Nat) :
    start + 902 ≤ chunkEnd text start := by
  unfold chunkEnd
  simp only [chunk_size]
  split
  · split
    · split <;> omega
    · omega
  · omega

/-- Loop of `chunk_text` (ingest.py lines 106-123): emit the stripped
window when it is non-empty, advance the window start to
`end - chunk_overlap`, stop when the new start reaches the text
length. -/
def chunkTextLoop (text : List Char) (start : Nat) : List (List Char) :=
  if _h : start < text.length then
    (if (pyStrip ((text.drop start).take (chunkEnd text start - start))).isEmpty then []
     else [pyStrip ((text.drop start).take (chunkEnd text start - start))]) ++
    (if _h2 : chunkEnd text start - chunk_overlap < text.length then
       chunkTextLoop text (chunkEnd text start - chunk_overlap)
     else [])
  else []
termination_by text.length - start
decreasing_by
  have := chunkEnd_ge text start
  simp only [chunk_overlap] at *
  omega

/-- `DocumentIngester.chunk_text` (ingest.py lines 98-125): a text no
longer than the chunk size is returned whole as a single chunk;
otherwise the overlapping-window loop runs from position 0. -/
def chunk_text (text : List Char) : List (List Char) :=
  if text.length ≤ chunk_size then [text] else chunkTextLoop text 0

/-- An embedding vector; the float coordinates of the source are
modelled with exact integers. -/
abbrev Vec := List Int

/-- The batch embedder `model.encode` wrapped by
`DocumentIngester.create_embeddings` (ingest.py lines 127-134): a
black-box function from a chunk batch to a vector batch; the failure
branch of `create_embeddings` returns an empty batch. -/
abbrev Embedder := List (List Char) → List Vec

/-- Per-chunk metadata record built in `process_documents`
(ingest.py lines 217-222). -/
structure ChunkMeta where
  source : String
  chunk_id : Nat
  total_chunks : Nat
  text_length : Nat
deriving Repr, DecidableEq, Inhabited

/-- One file enumerated by `process_documents`: its name together with
the text that `extract_text` produces for it.  An empty
`extractedText` models every degraded extraction outcome (unsupported
format, corrupt file, empty document). -/
structure IngestFile where
  name : String
  extractedText : List Char
deriving Repr, DecidableEq

/-- The on-disk index directory: the three artifacts
`faiss_index.bin`, `metadata.pkl` and `chunks.pkl`, each `none` when
the file is missing. -/
structure IndexDir where
  indexFile : Option (List Vec)
  metadataFile : Option (List ChunkMeta)
  chunksFile : Option (List (List Char))
deriving Repr, DecidableEq

/-- `load_index` (ingest.py lines 150-171 and rag.py lines 41-63,
identical logic): when either artifact file is missing — or a read
fails, which the source catches — the result is `(None, [])`;
otherwise the parsed index and metadata list. -/
def load_index (fs : IndexDir) : Option (List Vec) × List ChunkMeta :=
  match fs.indexFile, fs.metadataFile with
  | some idx, some md => (some idx, md)
  | _, _ => (none, [])

/-- `DocumentIngester.save_index` (ingest.py lines 136-148): writes
`faiss_index.bin` and `metadata.pkl`, and nothing else. -/
def save_index (index : List Vec) (metadata : List ChunkMeta) (fs : IndexDir) : IndexDir :=
  { fs with indexFile := some index, metadataFile := some metadata }

/-- `RAGProcessor.load_chunks` (rag.py lines 107-122): the parsed
`chunks.pkl`, or `[]` when the file is missing or unreadable. -/
def load_chunks (fs : IndexDir) : List (List Char) :=
  match fs.chunksFile with
  | some cs => cs
  | none => []

/-- Chunks contributed by one file in the `process_documents` loop
(ingest.py lines 207-211): clean, then chunk. -/
def fileChunks (f : IngestFile) : List (List Char) :=
  chunk_text (clean_text f.extractedText)

/-- Metadata records contributed by one file (ingest.py lines
215-222): for chunk `i`, its source file name, position, the file
total and the chunk length. -/
def fileMetadata (f : IngestFile) : List ChunkMeta :=
  (fileChunks f).enum.map fun p =>
    { source := f.name, chunk_id := p.1,
      total_chunks := (fileChunks f).length, text_length := p.2.length }

/-- The `all_chunks` accumulator of the `process_documents` loop
(ingest.py lines 196-222): files whose extraction came back empty are
skipped. -/
def collectChunks : List IngestFile → List (List Char)
  | [] => []
  | f :: fsrest =>
    (if f.extractedText.isEmpty then [] else fileChunks f) ++ collectChunks fsrest

/-- The `all_metadata` accumulator of the same loop. -/
def collectMetadata : List IngestFile → List ChunkMeta
  | [] => []
  | f :: fsrest =>
    (if f.extractedText.isEmpty then [] else fileMetadata f) ++ collectMetadata fsrest

/-- How a `process_documents` run ended. -/
inductive RunOutcome where
  | noFiles
  | noChunks
  | embedFailed
  | saved
deriving Repr, DecidableEq

/-- Severity levels of the logger. -/
inductive LogLevel where
  | info
  | warning
  | error
deriving Repr, DecidableEq

/-- Severity of the log line emitted at the end of each
`process_documents` branch (ingest.py lines 185, 225, 235, 252). -/
def outcomeLog : RunOutcome → LogLevel
  | .noFiles => .warning
  | .noChunks => .warning
  | .embedFailed => .error
  | .saved => .info

/-- `DocumentIngester.process_documents` (ingest.py lines 173-256).
The enumerated files and the embedding capability enter as parameters;
the result pairs the updated index directory with the branch the run
took.  The `Except` layer represents the `raise` in the handler at
line 256, which can only re-throw an exception raised inside the body:
every anomaly branch of the body returns normally. -/
def process_documents (files : List IngestFile) (embed : Embedder) (fs : IndexDir) :
    Except String (IndexDir × RunOutcome) :=
  if files.isEmpty then .ok (fs, .noFiles)
  else if (collectChunks files).isEmpty then .ok (fs, .noChunks)
  else if (embed (collectChunks files)).isEmpty then .ok (fs, .embedFailed)
  else
    match (load_index fs).1 with
    | some vecs =>
      .ok (save_index (vecs ++ embed (collectChunks files))
        ((load_index fs).2 ++ collectMetadata files) fs, .saved)
    | none =>
      .ok (save_index (embed (collectChunks files)) (collectMetadata files) fs, .saved)

/-- Inner product of two vectors, the similarity used by the
`IndexFlatIP` index (ingest.py line 246, rag.py line 87). -/
def dot (a b : Vec) : Int := (List.zipWith (· * ·) a b).sum

/-- The query embedder `create_query_embedding` (rag.py lines 65-72):
`none` models the empty array returned on an embedding failure. -/
abbrev QueryEmbedder := List Char → Option Vec

/-- The configured number of results, `self.top_k` (rag.py line 39). -/
def top_k : Nat := 5

/-- One element of the `relevant_chunks` list built by
`retrieve_relevant_chunks` (rag.py lines 92-96). -/
structure Evidence where
  text : List Char
  metadata : ChunkMeta
  score : Int
deriving Repr, DecidableEq

/-- Descending-score order on raw search results. -/
def resultGe (a b : Int × Nat) : Prop := b.1 ≤ a.1

instance : DecidableRel resultGe := fun a b => inferInstanceAs (Decidable (b.1 ≤ a.1))

instance : IsTotal (Int × Nat) resultGe := ⟨fun a b => le_total b.1 a.1⟩

instance : IsTrans (Int × Nat) resultGe := ⟨fun _ _ _ h1 h2 => le_trans h2 h1⟩

/-- Descending-score order on evidence entries, the key of the final
`relevant_chunks.sort(key=..., reverse=True)` (rag.py line 99). -/
def evidenceGe (a b : Evidence) : Prop := b.score ≤ a.score

instance : DecidableRel evidenceGe := fun a b => inferInstanceAs (Decidable (b.score ≤ a.score))

instance : IsTotal Evidence evidenceGe := ⟨fun a b => le_total b.score a.score⟩

instance : IsTrans Evidence evidenceGe := ⟨fun _ _ _ h1 h2 => le_trans h2 h1⟩

/-- Model of `index.search(query_embedding, k)` on an `IndexFlatIP`
index (rag.py line 87): the `k` highest-inner-product vector
positions, as (score, position) pairs in descending score order. -/
def searchIndex (index : List Vec) (q : Vec) (k : Nat) : List (Int × Nat) :=
  (List.insertionSort resultGe (index.enum.map fun p => (dot q p.2, p.1))).take k

/-- The zip-and-filter loop of `retrieve_relevant_chunks` (rag.py
lines 89-96): keep the results whose position is in range of both the
chunk list and the metadata list, reading text and metadata at that
position. -/
def buildRelevant (results : List (Int × Nat)) (metadata : List ChunkMeta)
    (chunks : List (List Char)) : List Evidence :=
  results.filterMap fun r =>
    if decide (r.2 < chunks.length) && decide (r.2 < metadata.length) then
      some { text := chunks.getD r.2 [], metadata := metadata.getD r.2 default, score := r.1 }
    else none

/-- `RAGProcessor.retrieve_relevant_chunks` (rag.py lines 74-105):
embed the query (empty embedding degrades to no evidence), search for
`min(top_k, ntotal)` neighbours, keep in-range results, sort by
descending score. -/
def retrieve_relevant_chunks (query : List Char) (index : List Vec)
    (metadata : List ChunkMeta) (chunks : List (List Char))
    (embedQuery : QueryEmbedder) : List Evidence :=
  match embedQuery query with
  | none => []
  | some q =>
    List.insertionSort evidenceGe
      (buildRelevant (searchIndex index q (min top_k index.length)) metadata chunks)

/-- Message returned by `process_query` when `load_index` reports no
index (rag.py line 185). -/
def msgNoKnowledgeBase : String :=
  "No knowledge base found. Please upload and process some documents first."

/-- Message returned by `process_query` when `load_chunks` comes back
empty (rag.py line 190). -/
def msgNoChunksFound : String :=
  "No text chunks found. Please re-process your documents."

/-- Message returned by `process_query` when retrieval yields no
evidence (rag.py line 196). -/
def msgNoRelevant : String :=
  "I couldn\x27t find relevant information in my knowledge base to answer your question."

/-- Prefix of the apology string built by `generate_response` when the
generative call fails (rag.py line 161). -/
def apologyPrefix : String :=
  "I apologize, but I encountered an error while generating a response: "

/-- `RAGProcessor._generate_mock_response` (rag.py lines 163-175): the
deterministic fallback used when no OpenAI client is configured. -/
def mock_response (query : List Char) (contextChunks : List Evidence) : String :=
  if contextChunks.isEmpty then
    "I don\x27t have enough information in my knowledge base to answer your question. Please upload some documents first."
  else
    let contextSummary :=
      String.intercalate " " ((contextChunks.take 2).map fun c => String.mk (c.text.take 200))
    "Based on the documents in my knowledge base, here\x27s what I found related to your question: \"" ++
      String.mk query ++ "\"\n\n" ++ String.mk (contextSummary.data.take 300) ++
      "...\n\nNote: This is a mock response. To get more accurate answers, please configure your OpenAI API key in the environment variables."

/-- Context block of the generation prompt (rag.py line 132): the
evidence texts joined by blank lines. -/
def buildContext (contextChunks : List Evidence) : String :=
  String.intercalate "\n\n" (contextChunks.map fun c => String.mk c.text)

/-- The user prompt built by `generate_response` (rag.py lines
139-144). -/
def buildUserPrompt (query : List Char) (contextChunks : List Evidence) : String :=
  "Context:\n" ++ buildContext contextChunks ++ "\n\nQuestion: " ++ String.mk query ++
    "\n\nPlease provide a helpful answer based on the context above."

/-- `RAGProcessor.generate_response` (rag.py lines 124-161): fall back
to the mock answer without a client; otherwise invoke the generative
capability on the built prompt, trimming its answer and converting any
failure into the apology string. -/
def generate_response (hasClient : Bool) (llm : String → Except String String)
    (query : List Char) (contextChunks : List Evidence) : String :=
  if !hasClient then mock_response query contextChunks
  else
    match llm (buildUserPrompt query contextChunks) with
    | .ok s => s.trim
    | .error e => apologyPrefix ++ e

/-- `RAGProcessor.process_query` (rag.py lines 177-206): load the
index (absent index short-circuits to the no-knowledge-base message),
load the chunk texts (empty short-circuits), retrieve (empty
short-circuits), then generate.  Every branch produces a plain
string. -/
def process_query (query : List Char) (fs : IndexDir) (embedQuery : QueryEmbedder)
    (hasClient : Bool) (llm : String → Except String String) : String :=
  match (load_index fs).1 with
  | none => msgNoKnowledgeBase
  | some index =>
    let chunks := load_chunks fs
    if chunks.isEmpty then msgNoChunksFound
    else
      let relevant := retrieve_relevant_chunks query index (load_index fs).2 chunks embedQuery
      if relevant.isEmpty then msgNoRelevant
      else generate_response hasClient llm query relevant

/-! Helper lemmas about stripping and whitespace collapsing. -/

theorem length_dropWhile_le {α : Type} (p : α → Bool) (l : List α) :
    (l.dropWhile p).length ≤ l.length := by
  induction l with
  | nil => simp
  | cons a l ih =>
    rw [List.dropWhile_cons]
    split
    · exact le_trans ih (by simp)
    · simp

theorem mem_dropWhile_sub {α : Type} {p : α → Bool} {a : α} {l : List α}
    (h : a ∈ l.dropWhile p) : a ∈ l := by
  induction l with
  | nil => simp at h
  | cons b l ih =>
    rw [List.dropWhile_cons] at h
    split at h
    · exact List.mem_cons_of_mem _ (ih h)
    · exact h

theorem dropWhile_idem {α : Type} (p : α → Bool) (l : List α) :
    (l.dropWhile p).dropWhile p = l.dropWhile p := by
  induction l with
  | nil => simp
  | cons a l ih =>
    rw [List.dropWhile_cons]
    split
    · exact ih
    · rw [List.dropWhile_cons, if_neg (by assumption)]

theorem strip_end_decomp {α : Type} (p : α → Bool) (m : List α) :
    ∃ t, ((m.reverse.dropWhile p).reverse) ++ t = m := by
  refine ⟨(m.reverse.takeWhile p).reverse, ?_⟩
  rw [← List.reverse_append, List.takeWhile_append_dropWhile, List.reverse_reverse]

theorem dropWhile_eq_self_of_append {α : Type} (p : α → Bool) (r t : List α)
    (h : (r ++ t).dropWhile p = r ++ t) : r.dropWhile p = r := by
  cases r with
  | nil => simp
  | cons a r2 =>
    have hpa : p a = false := by
      by_contra hp
      have hpa : p a = true := by simpa using hp
      rw [List.cons_append, List.dropWhile_cons, if_pos hpa] at h
      have h1 := congrArg List.length h
      have h2 := length_dropWhile_le p (r2 ++ t)
      simp only [List.length_append, List.length_cons] at h1 h2
      omega
    rw [List.dropWhile_cons, if_neg (by simp [hpa])]

theorem pyStrip_idem (l : List Char) : pyStrip (pyStrip l) = pyStrip l := by
  obtain ⟨t, ht⟩ := strip_end_decomp isSpaceChar (l.dropWhile isSpaceChar)
  have h1 : (pyStrip l).dropWhile isSpaceChar = pyStrip l := by
    apply dropWhile_eq_self_of_append isSpaceChar (pyStrip l) t
    have ht2 : pyStrip l ++ t = l.dropWhile isSpaceChar := ht
    rw [ht2]
    exact dropWhile_idem _ _
  show ((((pyStrip l).dropWhile isSpaceChar).reverse).dropWhile isSpaceChar).reverse = pyStrip l
  rw [h1]
  have h2 : (pyStrip l).reverse = (l.dropWhile isSpaceChar).reverse.dropWhile isSpaceChar := by
    unfold pyStrip
    rw [List.reverse_reverse]
  rw [h2, dropWhile_idem]
  rfl

theorem mem_pyStrip_sub {c : Char} {l : List Char} (h : c ∈ pyStrip l) : c ∈ l := by
  unfold pyStrip at h
  rw [List.mem_reverse] at h
  have h2 := mem_dropWhile_sub h
  rw [List.mem_reverse] at h2
  exact mem_dropWhile_sub h2

theorem collapseWsAux_space {c : Char} (l : List Char) :
    ∀ b, c ∈ collapseWsAux b l → isSpaceChar c = true → c = ' ' := by
  induction l with
  | nil => intro b hmem _; simp [collapseWsAux] at hmem
  | cons a l ih =>
    intro b hmem hs
    by_cases ha : isSpaceChar a = true
    · rw [collapseWsAux, if_pos ha] at hmem
      rcases List.mem_append.1 hmem with h | h
      · cases b with
        | true => simp at h
        | false => simpa using h
      · exact ih true h hs
    · rw [collapseWsAux, if_neg ha] at hmem
      rcases List.mem_cons.1 hmem with h | h
      · subst h; exact absurd hs ha
      · exact ih false h hs

/-- Every element the chunking loop emits is a stripped slice that
survived the non-emptiness guard (ingest.py lines 116-118). -/
theorem chunkTextLoop_mem (text : List Char) (start : Nat) (c : List Char)
    (hc : c ∈ chunkTextLoop text start) : (∃ s, c = pyStrip s) ∧ c ≠ [] := by
  rw [chunkTextLoop] at hc
  split at hc
  · rw [List.mem_append] at hc
    rcases hc with hc | hc
    · split at hc
      · simp at hc
      · rename_i hne
        rw [List.mem_singleton] at hc
        subst hc
        refine ⟨⟨_, rfl⟩, ?_⟩
        simpa using hne
    · split at hc
      · exact chunkTextLoop_mem text _ c hc
      · simp at hc
  · simp at hc
termination_by text.length - start
decreasing_by
  have := chunkEnd_ge text start
  simp only [chunk_overlap] at *
  omega

/-! Helper lemmas about the ingestion accumulators and artifact loading. -/

theorem forall₂_enumFrom_map (name : String) (tot : Nat) (cs : List (List Char)) :
    ∀ n, List.Forall₂ (fun (md : ChunkMeta) (c : List Char) => md.text_length = c.length)
      ((cs.enumFrom n).map fun p =>
        { source := name, chunk_id := p.1, total_chunks := tot, text_length := p.2.length })
      cs := by
  induction cs with
  | nil => intro n; exact List.Forall₂.nil
  | cons c cs ih =>
    intro n
    rw [List.enumFrom, List.map_cons]
    exact List.Forall₂.cons rfl (ih (n + 1))

/-- The metadata list a file contributes is positionally aligned with
its chunk list: entry `i` records the length of chunk `i`. -/
theorem forall₂_fileMetadata (f : IngestFile) :
    List.Forall₂ (fun (md : ChunkMeta) (c : List Char) => md.text_length = c.length)
      (fileMetadata f) (fileChunks f) :=
  forall₂_enumFrom_map f.name (fileChunks f).length (fileChunks f) 0

/-- The accumulated metadata list is positionally aligned with the
accumulated chunk list across all processed files. -/
theorem collect_align (files : List IngestFile) :
    List.Forall₂ (fun (md : ChunkMeta) (c : List Char) => md.text_length = c.length)
      (collectMetadata files) (collectChunks files) := by
  induction files with
  | nil => exact List.Forall₂.nil
  | cons f rest ih =>
    rw [collectMetadata, collectChunks]
    by_cases he : f.extractedText.isEmpty
    · rw [if_pos he, if_pos he, List.nil_append, List.nil_append]; exact ih
    · rw [if_neg he, if_neg he]
      exact List.rel_append (forall₂_fileMetadata f) ih

theorem collect_length (files : List IngestFile) :
    (collectMetadata files).length = (collectChunks files).length :=
  (collect_align files).length_eq

theorem load_index_fst_some {fs : IndexDir} {v : List Vec}
    (h : (load_index fs).1 = some v) :
    fs.indexFile = some v ∧ fs.metadataFile = some (load_index fs).2 := by
  rcases hfi : fs.indexFile with _ | idx <;> rcases hfm : fs.metadataFile with _ | md <;>
    simp_all [load_index]

theorem load_index_fst_none {fs : IndexDir} (h : (load_index fs).1 = none) :
    (load_index fs).2 = [] := by
  rcases hfi : fs.indexFile with _ | idx <;> rcases hfm : fs.metadataFile with _ | md <;>
    simp [load_index, hfi, hfm] at h ⊢

/-! Claim theorems. -/

/-- C1, counterexample.  On a run whose embedding step fails (empty
result), `process_documents` does not surface an error signal to its
caller: with one extractable document and a failing embedder it
returns normally (`Except.ok`), leaving the store untouched, instead
of producing an `Except.error`. -/
theorem C1_counterexample :
    process_documents [⟨"doc.txt", "hello".data⟩] (fun _ => []) ⟨none, none, none⟩
      = Except.ok (⟨none, none, none⟩, RunOutcome.embedFailed) := rfl

/-- C1, amended.  `process_documents` returns normally on every branch
of its body, embedding failure included: the embedding-failure branch
only logs at error severity (the other anomalies log at warning
severity) and returns early with the persisted state unchanged;
nothing is surfaced to the caller as an exception. -/
theorem C1_embed_failure_not_raised (files : List IngestFile) (embed : Embedder)
    (fs : IndexDir) :
    (∃ p, process_documents files embed fs = Except.ok p)
    ∧ (∀ fs2 out, process_documents files embed fs = Except.ok (fs2, out) →
        out = RunOutcome.embedFailed → fs2 = fs)
    ∧ outcomeLog RunOutcome.embedFailed = LogLevel.error
    ∧ outcomeLog RunOutcome.noFiles = LogLevel.warning
    ∧ outcomeLog RunOutcome.noChunks = LogLevel.warning := by
  refine ⟨?_, ?_, rfl, rfl, rfl⟩
  · unfold process_documents
    split
    · exact ⟨_, rfl⟩
    · split
      · exact ⟨_, rfl⟩
      · split
        · exact ⟨_, rfl⟩
        · split
          · exact ⟨_, rfl⟩
          · exact ⟨_, rfl⟩
  · intro fs2 out hrun hout
    subst hout
    unfold process_documents at hrun
    split at hrun
    · simp only [Except.ok.injEq, Prod.mk.injEq] at hrun
      exact absurd hrun.2 (by simp)
    · split at hrun
      · simp only [Except.ok.injEq, Prod.mk.injEq] at hrun
        exact absurd hrun.2 (by simp)
      · split at hrun
        · simp only [Except.ok.injEq, Prod.mk.injEq] at hrun
          exact hrun.1.symm
        · split at hrun <;>
            · simp only [Except.ok.injEq, Prod.mk.injEq] at hrun
              exact absurd hrun.2 (by simp)

/-- C1, witness for the amended theorem at a concrete failing run. -/
theorem C1_embed_failure_not_raised_witness :
    (⟨none, none, none⟩ : IndexDir) = ⟨none, none, none⟩ :=
  (C1_embed_failure_not_raised [⟨"doc.txt", "hello".data⟩] (fun _ => [])
      ⟨none, none, none⟩).2.1 ⟨none, none, none⟩ RunOutcome.embedFailed rfl rfl

/-- C2, counterexample.  A successful run over one five-character
document writes one vector and one metadata entry but never writes the
chunk-text artifact, so the persisted chunk-text count (zero) differs
from the vector count (one). -/
theorem C2_counterexample :
    process_documents [⟨"doc.txt", "hello".data⟩] (fun ts => ts.map fun _ => [(1 : Int)])
        ⟨none, none, none⟩
      = Except.ok (⟨some [[(1 : Int)]], some [⟨"doc.txt", 0, 1, 5⟩], none⟩, RunOutcome.saved)
    ∧ (load_chunks ⟨some [[(1 : Int)]], some [⟨"doc.txt", 0, 1, 5⟩], none⟩).length = 0
    ∧ ([[(1 : Int)]] : List Vec).length = 1 := ⟨rfl, rfl, rfl⟩

/-- C2, amended.  After every successful run the persisted vector
count equals the persisted metadata count and the two stores are
positionally aligned (old entries first, then the new batch, whose
metadata entry `i` records chunk `i`), provided the pre-existing
artifacts were aligned and the embedder is order/length-preserving as
§4.4 contracts; the chunk-text artifact is not written, so its entry
count is not related to the other two. -/
theorem C2_vector_metadata_alignment (files : List IngestFile) (embed : Embedder)
    (fs fs2 : IndexDir)
    (hembed : (embed (collectChunks files)).length = (collectChunks files).length)
    (halign : ∀ v m, fs.indexFile = some v → fs.metadataFile = some m → v.length = m.length)
    (hrun : process_documents files embed fs = Except.ok (fs2, RunOutcome.saved)) :
    ∃ v m, fs2.indexFile = some v ∧ fs2.metadataFile = some m
      ∧ v = ((load_index fs).1.getD []) ++ embed (collectChunks files)
      ∧ m = (load_index fs).2 ++ collectMetadata files
      ∧ v.length = m.length
      ∧ List.Forall₂ (fun (md : ChunkMeta) (c : List Char) => md.text_length = c.length)
          (collectMetadata files) (collectChunks files)
      ∧ fs2.chunksFile = fs.chunksFile := by
  unfold process_documents at hrun
  split at hrun
  · simp only [Except.ok.injEq, Prod.mk.injEq] at hrun
    exact absurd hrun.2 (by simp)
  · split at hrun
    · simp only [Except.ok.injEq, Prod.mk.injEq] at hrun
      exact absurd hrun.2 (by simp)
    · split at hrun
      · simp only [Except.ok.injEq, Prod.mk.injEq] at hrun
        exact absurd hrun.2 (by simp)
      · split at hrun
        · rename_i vecs hsome
          simp only [Except.ok.injEq, Prod.mk.injEq] at hrun
          obtain ⟨hfs2, -⟩ := hrun
          subst hfs2
          obtain ⟨-, hmd⟩ := load_index_fst_some hsome
          have hv := halign vecs (load_index fs).2 (load_index_fst_some hsome).1 hmd
          refine ⟨_, _, rfl, rfl, by rw [hsome]; rfl, rfl, ?_, collect_align files, rfl⟩
          simp only [List.length_append]
          rw [hembed, hv, collect_length]
        · rename_i hnone
          simp only [Except.ok.injEq, Prod.mk.injEq] at hrun
          obtain ⟨hfs2, -⟩ := hrun
          subst hfs2
          refine ⟨_, _, rfl, rfl, by rw [hnone]; rfl,
            by rw [load_index_fst_none hnone]; rfl, ?_, collect_align files, rfl⟩
          rw [hembed, collect_length]

/-- C2, witness for the amended theorem at a concrete successful run. -/
theorem C2_vector_metadata_alignment_witness :
    ∃ v m, (⟨some [[(1 : Int)]], some [⟨"doc.txt", 0, 1, 5⟩], none⟩ : IndexDir).indexFile = some v
      ∧ (⟨some [[(1 : Int)]], some [⟨"doc.txt", 0, 1, 5⟩], none⟩ : IndexDir).metadataFile = some m
      ∧ v.length = m.length := by
  obtain ⟨v, m, h1, h2, -, -, h5, -, -⟩ :=
    C2_vector_metadata_alignment [⟨"doc.txt", "hello".data⟩]
      (fun ts => ts.map fun _ => [(1 : Int)]) ⟨none, none, none⟩
      ⟨some [[(1 : Int)]], some [⟨"doc.txt", 0, 1, 5⟩], none⟩
      (by simp) (by intro v m hv _; cases hv) rfl
  exact ⟨v, m, h1, h2, h5⟩

/-- C3.  `save_index` writes exactly the vector index artifact and the
metadata artifact and leaves the chunk-text artifact untouched, and no
run of `process_documents` ever changes the chunk-text artifact: the
chunk file the Retriever later reads is never produced by
ingestion. -/
theorem C3_chunks_never_written (index : List Vec) (metadata : List ChunkMeta)
    (fs : IndexDir) (files : List IngestFile) (embed : Embedder) (fs2 : IndexDir)
    (out : RunOutcome) :
    (save_index index metadata fs).indexFile = some index
    ∧ (save_index index metadata fs).metadataFile = some metadata
    ∧ (save_index index metadata fs).chunksFile = fs.chunksFile
    ∧ (process_documents files embed fs = Except.ok (fs2, out) →
        fs2.chunksFile = fs.chunksFile) := by
  refine ⟨rfl, rfl, rfl, ?_⟩
  intro hrun
  unfold process_documents at hrun
  split at hrun
  · simp only [Except.ok.injEq, Prod.mk.injEq] at hrun
    rw [← hrun.1]
  · split at hrun
    · simp only [Except.ok.injEq, Prod.mk.injEq] at hrun
      rw [← hrun.1]
    · split at hrun
      · simp only [Except.ok.injEq, Prod.mk.injEq] at hrun
        rw [← hrun.1]
      · split at hrun <;>
          · simp only [Except.ok.injEq, Prod.mk.injEq] at hrun
            rw [← hrun.1]
            rfl

/-- C3, witness at a concrete successful run. -/
theorem C3_chunks_never_written_witness :
    (⟨some [[(1 : Int)]], some [⟨"doc.txt", 0, 1, 5⟩], none⟩ : IndexDir).chunksFile
      = (⟨none, none, none⟩ : IndexDir).chunksFile :=
  (C3_chunks_never_written [[(1 : Int)]] [⟨"doc.txt", 0, 1, 5⟩] ⟨none, none, none⟩
      [⟨"doc.txt", "hello".data⟩] (fun ts => ts.map fun _ => [(1 : Int)])
      ⟨some [[(1 : Int)]], some [⟨"doc.txt", 0, 1, 5⟩], none⟩ RunOutcome.saved).2.2.2 rfl

/-- C4.  `process_query` always returns a string, whatever the query,
store and capabilities: a missing index yields the no-knowledge-base
message, empty or missing chunk data yields the no-chunks message,
empty retrieval yields the no-relevant-information message, and
otherwise the answer comes from `generate_response`, which converts
any failure of the generative capability into a human-readable apology
string rather than letting it escape. -/
theorem C4_query_always_string (query : List Char) (fs : IndexDir)
    (embedQuery : QueryEmbedder) (hasClient : Bool) (llm : String → Except String String) :
    (process_query query fs embedQuery hasClient llm = msgNoKnowledgeBase
      ∨ process_query query fs embedQuery hasClient llm = msgNoChunksFound
      ∨ process_query query fs embedQuery hasClient llm = msgNoRelevant
      ∨ ∃ ev, process_query query fs embedQuery hasClient llm
          = generate_response hasClient llm query ev)
    ∧ (∀ e q cs, llm (buildUserPrompt q cs) = Except.error e →
        generate_response true llm q cs = apologyPrefix ++ e)
    ∧ ((load_index fs).1 = none →
        process_query query fs embedQuery hasClient llm = msgNoKnowledgeBase)
    ∧ ((load_index fs).1 ≠ none → load_chunks fs = [] →
        process_query query fs embedQuery hasClient llm = msgNoChunksFound) := by
  refine ⟨?_, ?_, ?_, ?_⟩
  · unfold process_query
    rcases h : (load_index fs).1 with _ | idx
    · exact Or.inl rfl
    · dsimp only
      by_cases hch : (load_chunks fs).isEmpty
      · rw [if_pos hch]
        exact Or.inr (Or.inl rfl)
      · rw [if_neg hch]
        split
        · exact Or.inr (Or.inr (Or.inl rfl))
        · exact Or.inr (Or.inr (Or.inr ⟨_, rfl⟩))
  · intro e q cs h
    unfold generate_response
    rw [h]
    rfl
  · intro h
    unfold process_query
    rw [h]
  · intro h hch
    unfold process_query
    rcases hidx : (load_index fs).1 with _ | idx
    · exact absurd hidx h
    · dsimp only
      rw [hch]
      rfl

/-- C4, witness at a store with no persisted index. -/
theorem C4_query_always_string_witness :
    process_query [] ⟨none, none, none⟩ (fun _ => none) false (fun _ => Except.error "boom")
      = msgNoKnowledgeBase :=
  (C4_query_always_string [] ⟨none, none, none⟩ (fun _ => none) false
      (fun _ => Except.error "boom")).2.2.1 rfl

/-- C5.  `retrieve_relevant_chunks` returns at most
`min(top_k, total_vectors)` evidence entries and the returned list is
sorted non-increasing by score. -/
theorem C5_topk_bound_sorted (query : List Char) (index : List Vec)
    (metadata : List ChunkMeta) (chunks : List (List Char)) (embedQuery : QueryEmbedder) :
    (retrieve_relevant_chunks query index metadata chunks embedQuery).length
        ≤ min top_k index.length
    ∧ List.Sorted evidenceGe (retrieve_relevant_chunks query index metadata chunks embedQuery) := by
  unfold retrieve_relevant_chunks
  rcases h : embedQuery query with _ | q
  · simp
  · refine ⟨?_, List.sorted_insertionSort evidenceGe _⟩
    rw [(List.perm_insertionSort evidenceGe _).length_eq]
    calc (buildRelevant (searchIndex index q (min top_k index.length)) metadata chunks).length
        ≤ (searchIndex index q (min top_k index.length)).length :=
          List.length_filterMap_le _ _
      _ ≤ min top_k index.length := by
          unfold searchIndex
          rw [List.length_take, (List.perm_insertionSort resultGe _).length_eq,
            List.length_map, List.enum_length]
          exact min_le_left _ _

/-- C6, counterexample.  `clean_text` can output a run of two
consecutive spaces: stripping the disallowed `@` from `"a @ b"` (whose
whitespace is already collapsed) merges its two surrounding spaces. -/
theorem C6_counterexample :
    clean_text ("a @ b".data) = "a  b".data
    ∧ hasDoubleSpace (clean_text ("a @ b".data)) = true := ⟨rfl, rfl⟩

/-- C6, amended.  Every character that `clean_text` outputs is in the
allow-list of word characters and basic punctuation, and every
whitespace character it outputs is the single-space character (runs
are collapsed to single spaces before filtering, so no tab or newline
survives, but removing a disallowed character may leave two adjacent
spaces); the function is deterministic and total by construction. -/
theorem C6_allowlist_single_spaces (text : List Char) :
    (∀ c ∈ clean_text text, allowedChar c = true)
    ∧ (∀ c ∈ clean_text text, isSpaceChar c = true → c = ' ') := by
  constructor
  · intro c hc
    exact List.of_mem_filter (mem_pyStrip_sub hc)
  · intro c hc hs
    exact collapseWsAux_space text false
      (List.mem_of_mem_filter (mem_pyStrip_sub hc)) hs

/-- C6, witness at a concrete character of a concrete cleaning. -/
theorem C6_allowlist_single_spaces_witness : allowedChar 'a' = true :=
  (C6_allowlist_single_spaces ("a b".data)).1 'a' (by decide)

/-- C7, counterexample.  On the empty input (or any whitespace-only
input of length at most the chunk size) `chunk_text` returns the whole
input as its single chunk, and that chunk is empty after whitespace
trimming. -/
theorem C7_counterexample :
    chunk_text [] = [[]]
    ∧ ¬ (∀ c ∈ chunk_text ([] : List Char), pyStrip c ≠ []) := by
  refine ⟨rfl, fun h => ?_⟩
  exact h [] (by rw [chunk_text, if_pos (by simp [chunk_size])]; exact List.mem_singleton.mpr rfl) rfl

/-- C7, amended.  For every input whose whitespace-trimmed form is
non-empty, every chunk returned by `chunk_text` is non-empty after
whitespace trimming; and whenever the input length is at most the
chunk size the whole input is returned as the single chunk (so for an
empty or whitespace-only input that single chunk trims to empty). -/
theorem C7_chunks_nonempty (text : List Char) (hne : pyStrip text ≠ []) :
    (∀ c ∈ chunk_text text, pyStrip c ≠ [])
    ∧ (text.length ≤ chunk_size → chunk_text text = [text]) := by
  constructor
  · intro c hc
    rw [chunk_text] at hc
    split at hc
    · rw [List.mem_singleton] at hc
      subst hc
      exact hne
    · obtain ⟨⟨s, hs⟩, hcne⟩ := chunkTextLoop_mem text 0 c hc
      rw [hs, pyStrip_idem]
      rw [hs] at hcne
      exact hcne
  · intro hle
    rw [chunk_text, if_pos hle]

/-- C7, witness: a short non-blank text is its own single, non-blank
chunk. -/
theorem C7_chunks_nonempty_witness : chunk_text ("hello".data) = ["hello".data] :=
  (C7_chunks_nonempty ("hello".data) (by decide)).2 (by decide)

/-- C8.  Every evidence entry emitted by `retrieve_relevant_chunks`
reads its text and metadata from one and the same in-range position of
the chunk list and the metadata list, and any (score, position) search
result whose position is out of range contributes nothing (it is
discarded silently by the zip-and-filter loop). -/
theorem C8_positions_in_range (query : List Char) (index : List Vec)
    (metadata : List ChunkMeta) (chunks : List (List Char)) (embedQuery : QueryEmbedder) :
    (∀ ev ∈ retrieve_relevant_chunks query index metadata chunks embedQuery,
      ∃ i, i < chunks.length ∧ i < metadata.length
        ∧ ev.text = chunks.getD i [] ∧ ev.metadata = metadata.getD i default)
    ∧ (∀ s i rest, ¬(i < chunks.length ∧ i < metadata.length) →
        buildRelevant ((s, i) :: rest) metadata chunks = buildRelevant rest metadata chunks) := by
  constructor
  · intro ev hev
    unfold retrieve_relevant_chunks at hev
    rcases h : embedQuery query with _ | q
    · rw [h] at hev
      simp at hev
    · rw [h] at hev
      have hmem := (List.perm_insertionSort evidenceGe _).mem_iff.mp hev
      unfold buildRelevant at hmem
      rw [List.mem_filterMap] at hmem
      obtain ⟨r, -, hr⟩ := hmem
      by_cases hcond : (decide (r.2 < chunks.length) && decide (r.2 < metadata.length)) = true
      · rw [if_pos hcond] at hr
        simp only [Bool.and_eq_true, decide_eq_true_eq] at hcond
        injection hr with hr
        exact ⟨r.2, hcond.1, hcond.2, by rw [← hr], by rw [← hr]⟩
      · rw [if_neg hcond] at hr
        cases hr
  · intro s i rest h
    unfold buildRelevant
    rw [List.filterMap_cons, if_neg (by simpa using h)]

/-- C8, witness: the single entry retrieved out of a one-vector store
reads position 0 of both lists. -/
theorem C8_positions_in_range_witness :
    ∃ i, i < ([['a']] : List (List Char)).length
      ∧ i < ([⟨"doc.txt", 0, 1, 1⟩] : List ChunkMeta).length
      ∧ (⟨['a'], ⟨"doc.txt", 0, 1, 1⟩, 1⟩ : Evidence).text = ([['a']] : List (List Char)).getD i []
      ∧ (⟨['a'], ⟨"doc.txt", 0, 1, 1⟩, 1⟩ : Evidence).metadata
          = ([⟨"doc.txt", 0, 1, 1⟩] : List ChunkMeta).getD i default :=
  (C8_positions_in_range ['q'] [[(1 : Int)]] [⟨"doc.txt", 0, 1, 1⟩] [['a']]
      (fun _ => some [(1 : Int)])).1 ⟨['a'], ⟨"doc.txt", 0, 1, 1⟩, 1⟩ (by decide)

/-- C9.  `load_index` returns the absent result `(none, [])`, as a
normal return value rather than an error, whenever either artifact
file is missing; when both are present it returns the loaded index
together with the loaded metadata list. -/
theorem C9_load_absent_not_error (fs : IndexDir) :
    ((fs.indexFile = none ∨ fs.metadataFile = none) → load_index fs = (none, []))
    ∧ (∀ idx md, fs.indexFile = some idx → fs.metadataFile = some md →
        load_index fs = (some idx, md)) := by
  constructor
  · intro h
    rcases h with h | h <;>
      rcases hfi : fs.indexFile with _ | idx <;>
      rcases hfm : fs.metadataFile with _ | md <;>
      simp_all [load_index]
  · intro idx md h1 h2
    simp [load_index, h1, h2]

/-- C9, witness: with the metadata artifact present but the index
artifact missing, loading yields the absent result. -/
theorem C9_load_absent_not_error_witness :
    load_index ⟨none, some [⟨"doc.txt", 0, 1, 5⟩], none⟩ = (none, []) :=
  (C9_load_absent_not_error ⟨none, some [⟨"doc.txt", 0, 1, 5⟩], none⟩).1 (Or.inl rfl)

/-- C10.  Each iteration of the `chunk_text` loop advances the window
start (`end - chunk_overlap`) by at least
`chunk_size - chunk_overlap - 99 = 701` characters, sentence-boundary
snapping included, so the distance from the window start to the end of
the text strictly decreases and the loop terminates (the totality of
`chunkTextLoop` is certified by exactly this measure). -/
theorem C10_loop_advances (text : List Char) (start : Nat) (h : start < text.length) :
    start + (chunk_size - chunk_overlap - 99) ≤ chunkEnd text start - chunk_overlap
    ∧ text.length - (chunkEnd text start - chunk_overlap) < text.length - start := by
  have := chunkEnd_ge text start
  simp only [chunk_size, chunk_overlap]
  omega

/-- C10, witness at a concrete window. -/
theorem C10_loop_advances_witness :
    (0 : Nat) + (chunk_size - chunk_overlap - 99) ≤ chunkEnd ("ab".data) 0 - chunk_overlap
    ∧ ("ab".data).length - (chunkEnd ("ab".data) 0 - chunk_overlap) < ("ab".data).length - 0 :=
  C10_loop_advances ("ab".data) 0 (by decide)

end Rag
